import Mathlib

/-!
# chrome-for-testing: `find-version.mjs`

A shallow embedding of the script `src/find-version.mjs` and theorems about
its version ordering, its selection loop and its availability probing.

Modelling conventions.

* A JavaScript string is the list of its UTF-16 code units (`JSString`).
  String literals of the source are written `utf16 "..."`.
* A `BigInt` is an unbounded integer; every `BigInt` built here is
  non-negative, so it is a `Nat`.
* An operation that can throw returns `Except Fault _`.
* The network is an input: the outcome of the metadata request is a value of
  type `Except Fault (List ReleaseEntry)`, and the outcome of the `i`-th HEAD
  request of a channel, issued for `url`, is `head i url`.
* `console.log` output and the `versions` set (which is only logged) are not
  modelled.
-/

namespace FindVersion

/-! ## Strings -/

/-- A JavaScript string: the list of its UTF-16 code units. -/
abbrev JSString := List Nat

/-- UTF-16 code units of one Unicode scalar value. -/
def utf16Char (c : Char) : List Nat :=
  if c.toNat < 65536 then [c.toNat]
  else [55296 + (c.toNat - 65536) / 1024, 56320 + (c.toNat - 65536) % 1024]

/-- The JavaScript string denoted by a literal. -/
def utf16 (s : String) : JSString :=
  s.toList.flatMap utf16Char

/-- Faults raised by the script. -/
inductive Fault where
  /-- A property is read from `null` (`match.groups` after a failed `exec`). -/
  | typeError
  /-- A request could not be completed (`fetch` rejects). -/
  | transport
  deriving DecidableEq, Repr

deriving instance DecidableEq for Except

/-! ## `makeDownloadUrl` -/

/-- Lorry download bucket labels, in insertion order (the iteration order of
the source's `Set`). -/
def platforms : List JSString :=
  [utf16 "linux64", utf16 "mac-arm64", utf16 "mac-x64", utf16 "win32", utf16 "win64"]

/-- The template literal of `makeDownloadUrl`. -/
def makeDownloadUrl (version platform : JSString) : JSString :=
  utf16 "https://edgedl.me.gvt1.com/edgedl/chrome/chrome-for-testing/"
    ++ version ++ utf16 "/" ++ platform ++ utf16 "/chrome-" ++ platform ++ utf16 ".zip"

/-! ## `reVersionNumber`

The pattern `/^(?<major>\d+)\.(?<minor>\d+)\.(?<build>\d+).(?<patch>\d+)$/`
is embedded with backtracking combinators: a matcher maps the remaining input
to the list of its possible outcomes, in the order in which a backtracking
engine tries them (a greedy quantifier tries the longest repetition first);
`exec` returns the first outcome of the whole pattern. -/

/-- The class `\d`: the code units of `0` to `9`. -/
def isDigit (c : Nat) : Bool := decide (48 ≤ c) && decide (c ≤ 57)

/-- Line terminators: the code units that an unescaped `.` does not match
(LF, CR, U+2028, U+2029). -/
def isLineTerminator (c : Nat) : Bool :=
  c == 10 || c == 13 || c == 8232 || c == 8233

/-- The atom `\.`: a literal full stop. -/
def isLiteralDot (c : Nat) : Bool := c == 46

/-- The atom `.` (no `s` flag): any code unit except a line terminator. -/
def isAnyChar (c : Nat) : Bool := !isLineTerminator c

/-- One atom: consumes one code unit that passes the test. -/
def reChar (test : Nat → Bool) : JSString → List JSString
  | [] => []
  | c :: cs => if test c then [cs] else []

/-- Greedy `atom*`: the outcomes (matched text, remaining input), the longest
repetition first. -/
def reStar (test : Nat → Bool) : JSString → List (JSString × JSString)
  | [] => [([], [])]
  | c :: cs =>
    (if test c then (reStar test cs).map (fun mr => (c :: mr.1, mr.2)) else [])
      ++ [([], c :: cs)]

/-- Greedy `atom+`: one occurrence followed by `atom*`. -/
def rePlus (test : Nat → Bool) : JSString → List (JSString × JSString)
  | [] => []
  | c :: cs =>
    if test c then (reStar test cs).map (fun mr => (c :: mr.1, mr.2)) else []

/-- The assertion `$` (no `m` flag): succeeds at the end of the input only. -/
def reEnd : JSString → List Unit
  | [] => [()]
  | _ :: _ => []

/-- The named groups of a match of `reVersionNumber`. -/
structure Groups where
  major : JSString
  minor : JSString
  build : JSString
  patch : JSString
  deriving DecidableEq, Repr

/-- All matches of `reVersionNumber` that start at index 0, in backtracking
order. The pattern starts with `^` and has no `m` flag, so no match starts
anywhere else. The third separator is the unescaped atom `.`. -/
def reVersionNumber_matches (s : JSString) : List Groups :=
  (rePlus isDigit s).flatMap fun major =>
  (reChar isLiteralDot major.2).flatMap fun r1 =>
  (rePlus isDigit r1).flatMap fun minor =>
  (reChar isLiteralDot minor.2).flatMap fun r2 =>
  (rePlus isDigit r2).flatMap fun build =>
  (reChar isAnyChar build.2).flatMap fun r3 =>
  (rePlus isDigit r3).flatMap fun patch =>
  (reEnd patch.2).map fun _ =>
    { major := major.1, minor := minor.1, build := build.1, patch := patch.1 }

/-- The value of `reVersionNumber.exec(s)`: `none` is `null`, `some g` is a
match whose `groups` are `g`. -/
def reVersionNumber_exec (s : JSString) : Option Groups :=
  (reVersionNumber_matches s).head?

/-! ## `hash` and `isOlderVersion` -/

/-- The value of `BigInt(s)` for a string `s` of decimal digits (the only
strings the groups of `reVersionNumber` can hold). -/
def BigInt (s : JSString) : Nat :=
  s.foldl (fun acc c => 10 * acc + (c - 48)) 0

/-- The function `hash`: reading `match.groups` throws when `exec` returned
`null`. -/
def hash (versionNumber : JSString) : Except Fault Nat :=
  match reVersionNumber_exec versionNumber with
  | none => Except.error Fault.typeError
  | some groups =>
    let major := BigInt groups.major
    let minor := BigInt groups.minor
    let build := BigInt groups.build
    let patch := BigInt groups.patch
    let hashed :=
      major * 1000000000000000
      + minor * 10000000000
      + build * 100000
      + patch
    Except.ok hashed

/-- The function `isOlderVersion`: `hash(a) < hash(b)`, with `hash(a)`
evaluated first. -/
def isOlderVersion (a b : JSString) : Except Fault Bool := do
  let ha ← hash a
  let hb ← hash b
  pure (decide (ha < hb))

/-! ## `findVersionForChannel` -/

/-- One entry of the metadata response. The branch position is modelled as a
non-negative integer. -/
structure ReleaseEntry where
  version : JSString
  chromium_main_branch_position : Nat
  deriving DecidableEq, Repr

/-- The value of `String(n)` for a branch position `n`: its decimal numeral.
This is the value JavaScript gives for the integers below 2^53, the range in
which a branch position is an exact number. -/
def numberToString (n : Nat) : JSString :=
  (Nat.toDigits 10 n).map Char.toNat

/-- The values `minRevision` takes: the initial number, or a string. -/
inductive Revision where
  | number (n : Nat)
  | string (s : JSString)
  deriving DecidableEq, Repr

/-- The variables `minVersion` and `minRevision` of the selection loop. -/
structure Selection where
  minVersion : JSString
  minRevision : Revision
  deriving DecidableEq, Repr

/-- The values of `minVersion` and `minRevision` before the loop. The source
writes the number as the literal `9999999999999999`; a JavaScript number is a
double, this literal lies above 2^53 between the doubles 9999999999999998 and
10000000000000000, and it evaluates to the latter (ties to even). -/
def initialSelection : Selection :=
  { minVersion := utf16 "99999.99999.99999.99999"
    minRevision := Revision.number 10000000000000000 }

/-- The body of `for (const entry of data)`. -/
def selectStep (st : Selection) (entry : ReleaseEntry) : Except Fault Selection := do
  let version := entry.version
  let revision := numberToString entry.chromium_main_branch_position
  if (← isOlderVersion version st.minVersion) then
    pure { minVersion := version, minRevision := Revision.string revision }
  else
    pure st

/-- The loop `for (const entry of data)`, started in state `st`. -/
def selectLoop : List ReleaseEntry → Selection → Except Fault Selection
  | [], st => pure st
  | entry :: rest, st => do
    let st' ← selectStep st entry
    selectLoop rest st'

/-- One element of `result.downloads`. -/
structure Download where
  platform : JSString
  url : JSString
  status : Nat
  deriving DecidableEq, Repr

/-- The object `result`. -/
structure ChannelResult where
  channel : JSString
  version : JSString
  revision : Revision
  ok : Bool
  downloads : List Download
  deriving DecidableEq, Repr

/-- What the network answers while one channel is processed: the parsed body
of the metadata response, and the status of the `i`-th HEAD request (counted
from 0), issued for `url`. An `Except.error` is a rejected `fetch`. -/
structure ChannelNet where
  releases : Except Fault (List ReleaseEntry)
  head : Nat → JSString → Except Fault Nat

/-- The loop `for (const platform of platforms)` that builds `urls`. -/
def makeUrls (minVersion : JSString) : List (JSString × JSString) :=
  platforms.map fun platform => (platform, makeDownloadUrl minVersion platform)

/-- The loop `for (const { platform, url } of urls)`: `i` counts the requests
made so far, the pair is `result.downloads` and `hasFailure`. -/
def probeLoop (head : Nat → JSString → Except Fault Nat) :
    List (JSString × JSString) → Nat → List Download × Bool →
      Except Fault (List Download × Bool)
  | [], _, acc => pure acc
  | (platform, url) :: rest, i, (downloads, hasFailure) => do
    let status ← head i url
    let hasFailure := if status ≠ 200 then true else hasFailure
    probeLoop head rest (i + 1)
      (downloads ++ [{ platform := platform, url := url, status := status }], hasFailure)

/-- The function `findVersionForChannel`. -/
def findVersionForChannel (net : ChannelNet) (channel : JSString) :
    Except Fault ChannelResult := do
  let result : ChannelResult :=
    { channel := channel
      version := utf16 "0.0.0.0"
      revision := Revision.string (utf16 "0")
      ok := false
      downloads := [] }
  let data ← net.releases
  let sel ← selectLoop data initialSelection
  let result := { result with version := sel.minVersion, revision := sel.minRevision }
  let urls := makeUrls sel.minVersion
  let (downloads, hasFailure) ← probeLoop net.head urls 0 (result.downloads, false)
  pure { result with downloads := downloads, ok := !hasFailure }

/-! ## The run -/

/-- The object `allResults` once the four channels are filled in. -/
structure Report where
  timestamp : JSString
  Stable : ChannelResult
  Beta : ChannelResult
  Dev : ChannelResult
  Canary : ChannelResult
  deriving DecidableEq, Repr

/-- The top level of the script: the four channels in turn; `net channel` is
what the network answers while `channel` is processed. The result is the
object that is serialised to `./data/output.json`; a fault ends the run before
anything is written. -/
def allResults (timestamp : JSString) (net : JSString → ChannelNet) :
    Except Fault Report := do
  let stable ← findVersionForChannel (net (utf16 "Stable")) (utf16 "Stable")
  let beta ← findVersionForChannel (net (utf16 "Beta")) (utf16 "Beta")
  let dev ← findVersionForChannel (net (utf16 "Dev")) (utf16 "Dev")
  let canary ← findVersionForChannel (net (utf16 "Canary")) (utf16 "Canary")
  pure { timestamp := timestamp, Stable := stable, Beta := beta, Dev := dev, Canary := canary }

/-! ## Specification vocabulary -/

/-- A non-empty group of decimal digits. -/
def IsDigits (s : JSString) : Prop :=
  s ≠ [] ∧ ∀ c ∈ s, isDigit c = true

instance (s : JSString) : Decidable (IsDigits s) := by
  unfold IsDigits; infer_instance

/-- The string `major.minor.build.patch` written with three full stops. -/
def renderVersion (g : Groups) : JSString :=
  g.major ++ 46 :: (g.minor ++ 46 :: (g.build ++ 46 :: g.patch))

/-- The tuple (major, minor, build, patch) of the decimal values of four
digit groups. -/
def versionTuple (g : Groups) : Nat × Nat × Nat × Nat :=
  (BigInt g.major, BigInt g.minor, BigInt g.build, BigInt g.patch)

/-- The string `v` is a VersionString with the digit groups `g`: four non-empty groups
of decimal digits separated by three full stops, each of value below
100000. -/
def IsVersionString (v : JSString) (g : Groups) : Prop :=
  IsDigits g.major ∧ IsDigits g.minor ∧ IsDigits g.build ∧ IsDigits g.patch ∧
  BigInt g.major < 100000 ∧ BigInt g.minor < 100000 ∧
  BigInt g.build < 100000 ∧ BigInt g.patch < 100000 ∧
  v = renderVersion g

instance (v : JSString) (g : Groups) : Decidable (IsVersionString v g) := by
  unfold IsVersionString; infer_instance

/-- The string `v` is a valid VersionString. -/
def ValidVersion (v : JSString) : Prop := ∃ g, IsVersionString v g

/-- Lexicographic order on (major, minor, build, patch). -/
def tupleLt (a b : Nat × Nat × Nat × Nat) : Prop :=
  a.1 < b.1 ∨ (a.1 = b.1 ∧
    (a.2.1 < b.2.1 ∨ (a.2.1 = b.2.1 ∧
      (a.2.2.1 < b.2.2.1 ∨ (a.2.2.1 = b.2.2.1 ∧ a.2.2.2 < b.2.2.2)))))

instance (a b : Nat × Nat × Nat × Nat) : Decidable (tupleLt a b) := by
  unfold tupleLt; infer_instance

/-- The selection an entry leaves behind when it replaces the running
minimum. -/
def selectionOf (entry : ReleaseEntry) : Selection :=
  { minVersion := entry.version
    minRevision := Revision.string (numberToString entry.chromium_main_branch_position) }

/-- The HEAD requests made for `version`, one per platform in the order of
`platforms`, return the statuses `statuses`, in that order. -/
def ProbesReturn (head : Nat → JSString → Except Fault Nat) (version : JSString)
    (statuses : List Nat) : Prop :=
  statuses.length = platforms.length ∧
  ∀ i (h : i < platforms.length),
    head i (makeDownloadUrl version (platforms.get ⟨i, h⟩)) = Except.ok (statuses.getD i 0)

instance (head : Nat → JSString → Except Fault Nat) (version : JSString)
    (statuses : List Nat) : Decidable (ProbesReturn head version statuses) := by
  unfold ProbesReturn; infer_instance

/-- The names of the four channels of a run, in the order they are processed. -/
def channels : List JSString :=
  [utf16 "Stable", utf16 "Beta", utf16 "Dev", utf16 "Canary"]

/-- The decimal value of a group of digits: the number whose base-10 digits,
most significant first, are the digits of `s`. -/
def decimalValue (s : JSString) : Nat :=
  Nat.ofDigits 10 ((s.map (fun c => c - 48)).reverse)

/-- Neither of two versions is older than the other. -/
def Incomparable (a b : JSString) : Prop :=
  isOlderVersion a b = Except.ok false ∧ isOlderVersion b a = Except.ok false

instance (a b : JSString) : Decidable (Incomparable a b) := by
  unfold Incomparable; infer_instance

/-! ## The pattern on well-formed input -/

theorem reStar_append (test : Nat → Bool) (A rest : JSString)
    (hA : ∀ c ∈ A, test c = true) (hrest : ∀ c r, rest = c :: r → test c = false) :
    ∃ tl, reStar test (A ++ rest) = (A, rest) :: tl := by
  induction A with
  | nil =>
    cases rest with
    | nil => exact ⟨[], rfl⟩
    | cons c r =>
      have hc := hrest c r rfl
      exact ⟨[], by simp [reStar, hc]⟩
  | cons a A ih =>
    obtain ⟨tl, htl⟩ := ih (fun c hc => hA c (List.mem_cons_of_mem _ hc))
    have ha := hA a (List.mem_cons_self _ _)
    exact ⟨tl.map (fun mr => (a :: mr.1, mr.2)) ++ [([], a :: (A ++ rest))],
      by simp [reStar, ha, htl]⟩

theorem rePlus_append (test : Nat → Bool) (A rest : JSString) (hne : A ≠ [])
    (hA : ∀ c ∈ A, test c = true) (hrest : ∀ c r, rest = c :: r → test c = false) :
    ∃ tl, rePlus test (A ++ rest) = (A, rest) :: tl := by
  cases A with
  | nil => exact absurd rfl hne
  | cons a A =>
    obtain ⟨tl, htl⟩ :=
      reStar_append test A rest (fun c hc => hA c (List.mem_cons_of_mem _ hc)) hrest
    have ha := hA a (List.mem_cons_self _ _)
    exact ⟨tl.map (fun mr => (a :: mr.1, mr.2)), by simp [rePlus, ha, htl]⟩

/-- On four digit groups separated by two full stops and then by any code
unit `x` that `.` matches and `\d` does not, the first match of the pattern
captures exactly the four groups. -/
theorem reVersionNumber_exec_groups (g : Groups) (x : Nat)
    (h1 : IsDigits g.major) (h2 : IsDigits g.minor) (h3 : IsDigits g.build)
    (h4 : IsDigits g.patch) (hx : isAnyChar x = true) (hxd : isDigit x = false) :
    reVersionNumber_exec
      (g.major ++ 46 :: (g.minor ++ 46 :: (g.build ++ x :: g.patch))) = some g := by
  have hdot : isDigit 46 = false := by decide
  obtain ⟨t1, e1⟩ := rePlus_append isDigit g.major
    (46 :: (g.minor ++ 46 :: (g.build ++ x :: g.patch))) h1.1 h1.2
    (fun c r h => by cases h; exact hdot)
  obtain ⟨t2, e2⟩ := rePlus_append isDigit g.minor
    (46 :: (g.build ++ x :: g.patch)) h2.1 h2.2 (fun c r h => by cases h; exact hdot)
  obtain ⟨t3, e3⟩ := rePlus_append isDigit g.build
    (x :: g.patch) h3.1 h3.2 (fun c r h => by cases h; exact hxd)
  obtain ⟨t4, e4⟩ := rePlus_append isDigit g.patch [] h4.1 h4.2
    (fun c r h => by cases h)
  rw [List.append_nil] at e4
  have hlit : isLiteralDot 46 = true := by decide
  simp [reVersionNumber_exec, reVersionNumber_matches, e1, e2, e3, e4, reChar, reEnd, hlit, hx]

theorem hash_renderVersion (g : Groups)
    (h1 : IsDigits g.major) (h2 : IsDigits g.minor) (h3 : IsDigits g.build)
    (h4 : IsDigits g.patch) :
    hash (renderVersion g) = Except.ok
      (BigInt g.major * 1000000000000000 + BigInt g.minor * 10000000000
        + BigInt g.build * 100000 + BigInt g.patch) := by
  have h := reVersionNumber_exec_groups g 46 h1 h2 h3 h4 (by decide) (by decide)
  simp [hash, renderVersion, h]

theorem hash_of_isVersionString {v : JSString} {g : Groups} (h : IsVersionString v g) :
    hash v = Except.ok
      (BigInt g.major * 1000000000000000 + BigInt g.minor * 10000000000
        + BigInt g.build * 100000 + BigInt g.patch) := by
  obtain ⟨h1, h2, h3, h4, -, -, -, -, rfl⟩ := h
  exact hash_renderVersion g h1 h2 h3 h4

/-! ## Ordering -/

/-- C1. For version strings `a` and `b` made of four digit groups whose values
are all below 100000, `isOlderVersion a b` returns, and returns `true` exactly
when the tuple of `a` is lexicographically below the tuple of `b`. -/
theorem isOlderVersion_eq_tupleLt (a b : JSString) (ga gb : Groups)
    (ha : IsVersionString a ga) (hb : IsVersionString b gb) :
    isOlderVersion a b = Except.ok (decide (tupleLt (versionTuple ga) (versionTuple gb))) := by
  have ka := hash_of_isVersionString ha
  have kb := hash_of_isVersionString hb
  obtain ⟨-, -, -, -, a1, a2, a3, a4, -⟩ := ha
  obtain ⟨-, -, -, -, b1, b2, b3, b4, -⟩ := hb
  simp only [isOlderVersion, ka, kb, bind, Except.bind, pure, Except.pure]
  congr 1
  simp only [tupleLt, versionTuple, decide_eq_decide]
  omega

/-- C1, on the two examples of the specification. -/
theorem isOlderVersion_eq_tupleLt_witness :
    (IsVersionString (utf16 "120.0.6099.5") ⟨utf16 "120", utf16 "0", utf16 "6099", utf16 "5"⟩
      ∧ IsVersionString (utf16 "120.0.6099.6")
          ⟨utf16 "120", utf16 "0", utf16 "6099", utf16 "6"⟩
      ∧ isOlderVersion (utf16 "120.0.6099.5") (utf16 "120.0.6099.6") = Except.ok true)
    ∧ (IsVersionString (utf16 "119.9.9999.9") ⟨utf16 "119", utf16 "9", utf16 "9999", utf16 "9"⟩
      ∧ IsVersionString (utf16 "120.0.0.0") ⟨utf16 "120", utf16 "0", utf16 "0", utf16 "0"⟩
      ∧ isOlderVersion (utf16 "119.9.9999.9") (utf16 "120.0.0.0") = Except.ok true) :=
  ⟨⟨by decide, by decide,
    isOlderVersion_eq_tupleLt (utf16 "120.0.6099.5") (utf16 "120.0.6099.6")
      ⟨utf16 "120", utf16 "0", utf16 "6099", utf16 "5"⟩
      ⟨utf16 "120", utf16 "0", utf16 "6099", utf16 "6"⟩ (by decide) (by decide)⟩,
   ⟨by decide, by decide,
    isOlderVersion_eq_tupleLt (utf16 "119.9.9999.9") (utf16 "120.0.0.0")
      ⟨utf16 "119", utf16 "9", utf16 "9999", utf16 "9"⟩
      ⟨utf16 "120", utf16 "0", utf16 "0", utf16 "0"⟩ (by decide) (by decide)⟩⟩

/-! ## The selection loop -/

theorem isOlderVersion_of_hash {a b : JSString} {ka kb : Nat}
    (ha : hash a = Except.ok ka) (hb : hash b = Except.ok kb) :
    isOlderVersion a b = Except.ok (decide (ka < kb)) := by
  simp [isOlderVersion, ha, hb, bind, Except.bind, pure, Except.pure]

theorem selectStep_of_hash {st : Selection} {entry : ReleaseEntry} {k k0 : Nat}
    (he : hash entry.version = Except.ok k) (hst : hash st.minVersion = Except.ok k0) :
    selectStep st entry = Except.ok (if k < k0 then selectionOf entry else st) := by
  have h := isOlderVersion_of_hash he hst
  by_cases hlt : k < k0 <;>
    simp [selectStep, selectionOf, h, hlt, bind, Except.bind, pure, Except.pure]

/-- The loop returns when every key can be computed. Its result has the least
key among the start state and the entries; it is the start state when no entry
has a smaller key, and otherwise the first entry whose key is the least. -/
theorem selectLoop_spec (data : List ReleaseEntry) :
    ∀ (st : Selection) (k0 : Nat), hash st.minVersion = Except.ok k0 →
      (∀ e ∈ data, ∃ k, hash e.version = Except.ok k) →
      ∃ st' k', selectLoop data st = Except.ok st' ∧ hash st'.minVersion = Except.ok k' ∧
        k' ≤ k0 ∧ (∀ e ∈ data, ∀ k, hash e.version = Except.ok k → k' ≤ k) ∧
        ((st' = st ∧ k' = k0) ∨
          (k' < k0 ∧ ∃ l1 e l2, data = l1 ++ e :: l2 ∧ st' = selectionOf e ∧
            ∀ e' ∈ l1, ∀ k, hash e'.version = Except.ok k → k' < k)) := by
  induction data with
  | nil =>
    intro st k0 hst _
    exact ⟨st, k0, rfl, hst, le_refl _, by simp, Or.inl ⟨rfl, rfl⟩⟩
  | cons entry rest ih =>
    intro st k0 hst hall
    obtain ⟨k, hk⟩ := hall entry (List.mem_cons_self _ _)
    have hrest : ∀ e ∈ rest, ∃ k, hash e.version = Except.ok k :=
      fun e he => hall e (List.mem_cons_of_mem _ he)
    have hstep := selectStep_of_hash hk hst
    by_cases hlt : k < k0
    · rw [if_pos hlt] at hstep
      obtain ⟨st', k', hrun, hkey, hle, hmin, hcase⟩ := ih (selectionOf entry) k hk hrest
      refine ⟨st', k', ?_, hkey, by omega, ?_, Or.inr ⟨?_, ?_⟩⟩
      · simp [selectLoop, hstep, hrun, bind, Except.bind]
      · intro e he ke hke
        rcases List.mem_cons.1 he with rfl | he
        · rw [hk] at hke; cases hke; exact hle
        · exact hmin e he ke hke
      · rcases hcase with ⟨-, hk'⟩ | ⟨hk', -⟩ <;> omega
      · rcases hcase with ⟨hst', -⟩ | ⟨hk', l1, e, l2, hdata, hst', hl1⟩
        · exact ⟨[], entry, rest, rfl, hst', by simp⟩
        · refine ⟨entry :: l1, e, l2, by simp [hdata], hst', ?_⟩
          intro e' he' ke hke
          rcases List.mem_cons.1 he' with rfl | he'
          · rw [hk] at hke; cases hke; exact hk'
          · exact hl1 e' he' ke hke
    · rw [if_neg hlt] at hstep
      obtain ⟨st', k', hrun, hkey, hle, hmin, hcase⟩ := ih st k0 hst hrest
      refine ⟨st', k', ?_, hkey, hle, ?_, ?_⟩
      · simp [selectLoop, hstep, hrun, bind, Except.bind]
      · intro e he ke hke
        rcases List.mem_cons.1 he with rfl | he
        · rw [hk] at hke; cases hke; omega
        · exact hmin e he ke hke
      · rcases hcase with hsame | ⟨hk', l1, e, l2, hdata, hst', hl1⟩
        · exact Or.inl hsame
        · refine Or.inr ⟨hk', entry :: l1, e, l2, by simp [hdata], hst', ?_⟩
          intro e' he' ke hke
          rcases List.mem_cons.1 he' with rfl | he'
          · rw [hk] at hke; cases hke; omega
          · exact hl1 e' he' ke hke

/-- The key of the initial `minVersion`. -/
theorem hash_initialSelection :
    hash initialSelection.minVersion = Except.ok 99999999999999999999 := by decide

theorem hash_ok_of_validVersion {v : JSString} (h : ValidVersion v) :
    ∃ k, hash v = Except.ok k := by
  obtain ⟨g, hg⟩ := h
  exact ⟨_, hash_of_isVersionString hg⟩

theorem hash_le_of_validVersion {v : JSString} {k : Nat} (h : ValidVersion v)
    (hk : hash v = Except.ok k) : k ≤ 99999999999999999999 := by
  obtain ⟨g, hg⟩ := h
  have hk' := hash_of_isVersionString hg
  obtain ⟨-, -, -, -, a1, a2, a3, a4, -⟩ := hg
  rw [hk] at hk'
  cases hk'
  omega

theorem hash_lt_of_tuple_ne {v : JSString} {g : Groups} {k : Nat}
    (hg : IsVersionString v g) (hne : versionTuple g ≠ (99999, 99999, 99999, 99999))
    (hk : hash v = Except.ok k) : k < 99999999999999999999 := by
  have hk' := hash_of_isVersionString hg
  obtain ⟨-, -, -, -, a1, a2, a3, a4, -⟩ := hg
  rw [hk] at hk'
  cases hk'
  have hne' : ¬ (BigInt g.major = 99999 ∧ BigInt g.minor = 99999 ∧
      BigInt g.build = 99999 ∧ BigInt g.patch = 99999) := by
    rintro ⟨e1, e2, e3, e4⟩
    exact hne (by simp [versionTuple, e1, e2, e3, e4])
  omega

/-- C2, as amended. For every list of release entries whose versions are valid
VersionStrings, at least one of which is not 99999.99999.99999.99999, the
selection loop returns a selection whose version is the version of an entry
of the list, whose revision is the string of that entry's branch position,
and whose key is at most the key of every entry. -/
theorem selectLoop_selects_minimum (data : List ReleaseEntry)
    (hvalid : ∀ e ∈ data, ValidVersion e.version)
    (hlow : ∃ e ∈ data, ∃ g, IsVersionString e.version g ∧
      versionTuple g ≠ (99999, 99999, 99999, 99999)) :
    ∃ sel e kmin, selectLoop data initialSelection = Except.ok sel ∧
      e ∈ data ∧ sel.minVersion = e.version ∧
      sel.minRevision = Revision.string (numberToString e.chromium_main_branch_position) ∧
      hash sel.minVersion = Except.ok kmin ∧
      ∀ e' ∈ data, ∃ k, hash e'.version = Except.ok k ∧ kmin ≤ k := by
  obtain ⟨st', k', hrun, hkey, -, hmin, hcase⟩ :=
    selectLoop_spec data initialSelection _ hash_initialSelection
      (fun e he => hash_ok_of_validVersion (hvalid e he))
  obtain ⟨e0, he0, g0, hg0, hne0⟩ := hlow
  obtain ⟨k0, hk0⟩ := hash_ok_of_validVersion (hvalid e0 he0)
  have hlt0 := hash_lt_of_tuple_ne hg0 hne0 hk0
  have hle0 := hmin e0 he0 k0 hk0
  rcases hcase with ⟨-, hk'⟩ | ⟨-, l1, e, l2, hdata, hst', -⟩
  · omega
  · refine ⟨st', e, k', hrun, by simp [hdata], by rw [hst']; rfl, by rw [hst']; rfl, hkey, ?_⟩
    intro e' he'
    obtain ⟨k, hk⟩ := hash_ok_of_validVersion (hvalid e' he')
    exact ⟨k, hk, hmin e' he' k hk⟩

/-- C2, on the example of the specification: entries ("121.0.6100.1", 1001),
("121.0.6100.3", 1003), ("121.0.6099.9", 1002) select "121.0.6099.9" with
revision "1002". -/
theorem selectLoop_selects_minimum_witness :
    (∃ sel e kmin,
      selectLoop [⟨utf16 "121.0.6100.1", 1001⟩, ⟨utf16 "121.0.6100.3", 1003⟩,
        ⟨utf16 "121.0.6099.9", 1002⟩] initialSelection = Except.ok sel ∧
      e ∈ [(⟨utf16 "121.0.6100.1", 1001⟩ : ReleaseEntry), ⟨utf16 "121.0.6100.3", 1003⟩,
        ⟨utf16 "121.0.6099.9", 1002⟩] ∧ sel.minVersion = e.version ∧
      sel.minRevision = Revision.string (numberToString e.chromium_main_branch_position) ∧
      hash sel.minVersion = Except.ok kmin ∧
      ∀ e' ∈ [(⟨utf16 "121.0.6100.1", 1001⟩ : ReleaseEntry), ⟨utf16 "121.0.6100.3", 1003⟩,
        ⟨utf16 "121.0.6099.9", 1002⟩], ∃ k, hash e'.version = Except.ok k ∧ kmin ≤ k)
    ∧ selectLoop [⟨utf16 "121.0.6100.1", 1001⟩, ⟨utf16 "121.0.6100.3", 1003⟩,
        ⟨utf16 "121.0.6099.9", 1002⟩] initialSelection =
      Except.ok ⟨utf16 "121.0.6099.9", Revision.string (utf16 "1002")⟩ :=
  ⟨selectLoop_selects_minimum _
    (by
      intro e he
      simp only [List.mem_cons, List.mem_singleton, List.not_mem_nil, or_false] at he
      rcases he with rfl | rfl | rfl
      · exact ⟨⟨utf16 "121", utf16 "0", utf16 "6100", utf16 "1"⟩, by decide⟩
      · exact ⟨⟨utf16 "121", utf16 "0", utf16 "6100", utf16 "3"⟩, by decide⟩
      · exact ⟨⟨utf16 "121", utf16 "0", utf16 "6099", utf16 "9"⟩, by decide⟩)
    ⟨⟨utf16 "121.0.6100.1", 1001⟩, by simp,
      ⟨utf16 "121", utf16 "0", utf16 "6100", utf16 "1"⟩, by decide, by decide⟩,
   by decide⟩

/-- C2 as stated fails: the single valid entry ("99999.99999.99999.99999", 1001)
does not replace the initial minimum, so the selected revision is the initial
number and not the string of any entry's branch position. -/
theorem selectLoop_sentinel_entry_not_selected :
    ([(⟨utf16 "99999.99999.99999.99999", 1001⟩ : ReleaseEntry)] ≠ [] ∧
      IsVersionString (utf16 "99999.99999.99999.99999")
        ⟨utf16 "99999", utf16 "99999", utf16 "99999", utf16 "99999"⟩) ∧
    selectLoop [⟨utf16 "99999.99999.99999.99999", 1001⟩] initialSelection =
      Except.ok ⟨utf16 "99999.99999.99999.99999", Revision.number 10000000000000000⟩ ∧
    Revision.number 10000000000000000 ≠ Revision.string (numberToString 1001) := by
  decide

/-- C6, as amended (first-wins). For every list of release entries whose keys
can all be computed, if the entry `e` has a key below the key of the initial
minimum, strictly below the key of every earlier entry and at most the key of
every later entry, the loop selects the version and revision of `e`: a later
entry with an equal key does not replace it. -/
theorem selectLoop_first_wins (l1 l2 : List ReleaseEntry) (e : ReleaseEntry) (k : Nat)
    (hall : ∀ e' ∈ l1 ++ e :: l2, ∃ k', hash e'.version = Except.ok k')
    (hk : hash e.version = Except.ok k) (hinit : k < 99999999999999999999)
    (hbefore : ∀ e' ∈ l1, ∀ k', hash e'.version = Except.ok k' → k < k')
    (hafter : ∀ e' ∈ l2, ∀ k', hash e'.version = Except.ok k' → k ≤ k') :
    selectLoop (l1 ++ e :: l2) initialSelection = Except.ok (selectionOf e) := by
  obtain ⟨st', k', hrun, hkey, -, hmin, hcase⟩ :=
    selectLoop_spec (l1 ++ e :: l2) initialSelection _ hash_initialSelection hall
  have hle : k' ≤ k := hmin e (by simp) k hk
  rcases hcase with ⟨-, hk'⟩ | ⟨-, m1, e2, m2, hdata, hst', hm1⟩
  · omega
  · rw [hrun, hst']
    have hk2 : hash e2.version = Except.ok k' := by rw [hst'] at hkey; exact hkey
    have he2 : e2 ∈ l1 ++ e :: l2 := by rw [hdata]; simp
    have hge : k ≤ k' := by
      rcases List.mem_append.1 he2 with h | h
      · exact le_of_lt (hbefore e2 h k' hk2)
      · rcases List.mem_cons.1 h with h | h
        · rw [h, hk] at hk2; cases hk2; exact le_refl _
        · exact hafter e2 h k' hk2
    rcases List.append_eq_append_iff.1 hdata with ⟨a, hm, ha⟩ | ⟨c, hl, hc⟩
    · cases a with
      | nil =>
        simp only [List.nil_append, List.cons.injEq] at ha
        rw [ha.1]
      | cons x a =>
        simp only [List.cons_append, List.cons.injEq] at ha
        have hx : e ∈ m1 := by rw [hm, ha.1]; simp
        have := hm1 e hx k hk
        omega
    · cases c with
      | nil =>
        simp only [List.nil_append, List.cons.injEq] at hc
        rw [hc.1]
      | cons x c =>
        simp only [List.cons_append, List.cons.injEq] at hc
        have hx : e2 ∈ l1 := by rw [hl, hc.1]; simp
        have := hbefore e2 hx k' hk2
        omega

/-- C6, on the example of the specification: for ("1.2.3.4", 10) followed by
("1.2.3.4", 20) the first entry is selected. -/
theorem selectLoop_first_wins_witness :
    hash (utf16 "1.2.3.4") = Except.ok 1000020000300004 ∧
    selectLoop ([] ++ (⟨utf16 "1.2.3.4", 10⟩ : ReleaseEntry) :: [⟨utf16 "1.2.3.4", 20⟩])
      initialSelection = Except.ok ⟨utf16 "1.2.3.4", Revision.string (utf16 "10")⟩ :=
  ⟨by decide,
   selectLoop_first_wins [] [⟨utf16 "1.2.3.4", 20⟩] ⟨utf16 "1.2.3.4", 10⟩ 1000020000300004
    (by
      intro e' he'
      simp only [List.nil_append, List.mem_cons, List.mem_singleton, List.not_mem_nil,
        or_false] at he'
      rcases he' with rfl | rfl <;> exact ⟨1000020000300004, by decide⟩)
    (by decide) (by decide) (by simp)
    (by
      intro e' he' k' hk'
      simp only [List.mem_singleton] at he'
      subst he'
      have h : hash (utf16 "1.2.3.4") = Except.ok 1000020000300004 := by decide
      have h2 : hash (utf16 "1.2.3.4") = Except.ok k' := hk'
      rw [h] at h2
      cases h2
      exact le_refl _)⟩

/-- C6 as stated fails: two entries with the same version and different
branch positions select the revision of the first, not of the last. -/
theorem selectLoop_tie_keeps_first :
    hash (⟨utf16 "1.2.3.4", 10⟩ : ReleaseEntry).version
      = hash (⟨utf16 "1.2.3.4", 20⟩ : ReleaseEntry).version ∧
    selectLoop [⟨utf16 "1.2.3.4", 10⟩, ⟨utf16 "1.2.3.4", 20⟩] initialSelection =
      Except.ok ⟨utf16 "1.2.3.4", Revision.string (utf16 "10")⟩ ∧
    Revision.string (utf16 "10") ≠ Revision.string (utf16 "20") := by
  decide

/-- C7. For every list of release entries with valid versions whose keys are
pairwise distinct, and every permutation of it, the selection loop returns on
both and returns the same version and revision. -/
theorem selectLoop_perm (data data' : List ReleaseEntry)
    (hvalid : ∀ e ∈ data, ValidVersion e.version)
    (hdistinct : data.Pairwise (fun e e' => hash e.version ≠ hash e'.version))
    (hperm : data.Perm data') :
    ∃ sel, selectLoop data initialSelection = Except.ok sel ∧
      selectLoop data' initialSelection = Except.ok sel := by
  have hall : ∀ e ∈ data, ∃ k, hash e.version = Except.ok k :=
    fun e he => hash_ok_of_validVersion (hvalid e he)
  have hall' : ∀ e ∈ data', ∃ k, hash e.version = Except.ok k :=
    fun e he => hall e (hperm.mem_iff.2 he)
  obtain ⟨s1, k1, hrun1, hkey1, -, hmin1, hcase1⟩ :=
    selectLoop_spec data initialSelection _ hash_initialSelection hall
  obtain ⟨s2, k2, hrun2, hkey2, -, hmin2, hcase2⟩ :=
    selectLoop_spec data' initialSelection _ hash_initialSelection hall'
  refine ⟨s1, hrun1, ?_⟩
  rw [hrun2]
  congr 1
  rcases hcase1 with ⟨hs1, hk1⟩ | ⟨hk1, l1, e1, l1', hd1, hs1, -⟩
  · rcases hcase2 with ⟨hs2, -⟩ | ⟨hk2, l2, e2, l2', hd2, hs2, -⟩
    · rw [hs1, hs2]
    · have he2 : e2 ∈ data := hperm.mem_iff.2 (by simp [hd2])
      have hke2 : hash e2.version = Except.ok k2 := by rw [hs2] at hkey2; exact hkey2
      have := hmin1 e2 he2 k2 hke2
      omega
  · have he1 : e1 ∈ data := by simp [hd1]
    have hke1 : hash e1.version = Except.ok k1 := by rw [hs1] at hkey1; exact hkey1
    rcases hcase2 with ⟨-, hk2⟩ | ⟨-, l2, e2, l2', hd2, hs2, -⟩
    · have := hmin2 e1 (hperm.mem_iff.1 he1) k1 hke1
      omega
    · have he2 : e2 ∈ data := hperm.mem_iff.2 (by simp [hd2])
      have hke2 : hash e2.version = Except.ok k2 := by rw [hs2] at hkey2; exact hkey2
      have h12 := hmin1 e2 he2 k2 hke2
      have h21 := hmin2 e1 (hperm.mem_iff.1 he1) k1 hke1
      have hkk : k1 = k2 := by omega
      have hee : e2 = e1 := by
        by_contra hne
        have hsymm : Symmetric (fun e e' : ReleaseEntry => hash e.version ≠ hash e'.version) :=
          fun _ _ h => h.symm
        exact hdistinct.forall hsymm he2 he1 hne (by rw [hke1, hke2, hkk])
      rw [hs1, hs2, hee]

/-- C7, on a list of three entries and its reversal. -/
theorem selectLoop_perm_witness :
    List.Perm
      [(⟨utf16 "121.0.6100.1", 1001⟩ : ReleaseEntry), ⟨utf16 "121.0.6100.3", 1003⟩,
        ⟨utf16 "121.0.6099.9", 1002⟩]
      [⟨utf16 "121.0.6099.9", 1002⟩, ⟨utf16 "121.0.6100.3", 1003⟩,
        ⟨utf16 "121.0.6100.1", 1001⟩] ∧
    ∃ sel,
      selectLoop [⟨utf16 "121.0.6100.1", 1001⟩, ⟨utf16 "121.0.6100.3", 1003⟩,
        ⟨utf16 "121.0.6099.9", 1002⟩] initialSelection = Except.ok sel ∧
      selectLoop [⟨utf16 "121.0.6099.9", 1002⟩, ⟨utf16 "121.0.6100.3", 1003⟩,
        ⟨utf16 "121.0.6100.1", 1001⟩] initialSelection = Except.ok sel :=
  ⟨by decide,
   selectLoop_perm _ _
    (by
      intro e he
      simp only [List.mem_cons, List.mem_singleton, List.not_mem_nil, or_false] at he
      rcases he with rfl | rfl | rfl
      · exact ⟨⟨utf16 "121", utf16 "0", utf16 "6100", utf16 "1"⟩, by decide⟩
      · exact ⟨⟨utf16 "121", utf16 "0", utf16 "6100", utf16 "3"⟩, by decide⟩
      · exact ⟨⟨utf16 "121", utf16 "0", utf16 "6099", utf16 "9"⟩, by decide⟩)
    (by decide) (by decide)⟩

/-! ## Probing -/

/-- When the requests return the statuses `ss`, the probing loop returns, has
appended one download per url, and has raised `hasFailure` when a status
differs from 200. -/
theorem probeLoop_ok (head : Nat → JSString → Except Fault Nat) :
    ∀ (urls : List (JSString × JSString)) (ss : List Nat) (i : Nat)
      (downloads : List Download) (hasFailure : Bool),
      ss.length = urls.length →
      (∀ j (h : j < urls.length), head (i + j) (urls.get ⟨j, h⟩).2 = Except.ok (ss.getD j 0)) →
      probeLoop head urls i (downloads, hasFailure) =
        Except.ok (downloads ++ List.zipWith (fun pu s => ⟨pu.1, pu.2, s⟩) urls ss,
          hasFailure || ss.any (fun s => s != 200)) := by
  intro urls
  induction urls with
  | nil =>
    intro ss i downloads hasFailure hlen _
    have hss : ss = [] := List.length_eq_zero.1 hlen
    subst hss
    simp [probeLoop, pure, Except.pure]
  | cons pu rest ih =>
    intro ss i downloads hasFailure hlen hhead
    obtain ⟨platform, url⟩ := pu
    cases ss with
    | nil => simp at hlen
    | cons s ss =>
      have h0 := hhead 0 (by simp)
      simp only [Nat.add_zero, List.get_eq_getElem, List.getElem_cons_zero,
        List.getD_cons_zero] at h0
      have hrest := ih ss (i + 1) (downloads ++ [⟨platform, url, s⟩])
        (if s ≠ 200 then true else hasFailure) (by simpa using hlen)
        (by
          intro j hj
          have := hhead (j + 1) (by simpa using hj)
          simpa [Nat.add_assoc, Nat.add_comm 1 j] using this)
      simp only [probeLoop, h0, bind, Except.bind, hrest]
      by_cases hs : s = 200 <;> simp [hs]

/-- When a request fails and the earlier ones returned, the probing loop
fails with the same fault, whatever the later requests would answer. -/
theorem probeLoop_error (head : Nat → JSString → Except Fault Nat) :
    ∀ (urls : List (JSString × JSString)) (i : Nat) (acc : List Download × Bool)
      (j : Nat) (f : Fault) (hj : j < urls.length),
      (∀ m (h : m < urls.length), m < j → ∃ s, head (i + m) (urls.get ⟨m, h⟩).2 = Except.ok s) →
      head (i + j) (urls.get ⟨j, hj⟩).2 = Except.error f →
      probeLoop head urls i acc = Except.error f := by
  intro urls
  induction urls with
  | nil => intro i acc j f hj; simp at hj
  | cons pu rest ih =>
    intro i acc j f hj hprev hfail
    obtain ⟨platform, url⟩ := pu
    obtain ⟨downloads, hasFailure⟩ := acc
    cases j with
    | zero =>
      simp only [Nat.add_zero, List.get_eq_getElem, List.getElem_cons_zero] at hfail
      simp [probeLoop, hfail, bind, Except.bind]
    | succ j =>
      obtain ⟨s, hs⟩ := hprev 0 (by simp) (Nat.succ_pos j)
      simp only [Nat.add_zero, List.get_eq_getElem, List.getElem_cons_zero] at hs
      simp only [probeLoop, hs, bind, Except.bind]
      apply ih (i + 1) _ j f (by simpa using hj)
      · intro m hm hmj
        obtain ⟨s', hs'⟩ := hprev (m + 1) (by simpa using hm) (by omega)
        exact ⟨s', by simpa [Nat.add_assoc, Nat.add_comm 1 m] using hs'⟩
      · simpa [Nat.add_assoc, Nat.add_comm 1 j] using hfail

theorem probesReturn_makeUrls {head : Nat → JSString → Except Fault Nat}
    {version : JSString} {ss : List Nat} (hp : ProbesReturn head version ss) :
    ss.length = (makeUrls version).length ∧
    ∀ j (h : j < (makeUrls version).length),
      head (0 + j) ((makeUrls version).get ⟨j, h⟩).2 = Except.ok (ss.getD j 0) := by
  refine ⟨by simpa [makeUrls] using hp.1, ?_⟩
  intro j h
  have hj : j < platforms.length := by simpa [makeUrls] using h
  simpa [makeUrls] using hp.2 j hj

/-- The result of `findVersionForChannel` when the metadata request answers
`data`, the selection loop returns `sel` and the probes return `ss`. -/
theorem findVersionForChannel_ok (net : ChannelNet) (channel : JSString)
    (data : List ReleaseEntry) (sel : Selection) (ss : List Nat)
    (hdata : net.releases = Except.ok data)
    (hsel : selectLoop data initialSelection = Except.ok sel)
    (hp : ProbesReturn net.head sel.minVersion ss) :
    findVersionForChannel net channel = Except.ok
      { channel := channel
        version := sel.minVersion
        revision := sel.minRevision
        ok := !(ss.any (fun s => s != 200))
        downloads := List.zipWith (fun platform s =>
          ⟨platform, makeDownloadUrl sel.minVersion platform, s⟩) platforms ss } := by
  obtain ⟨hlen, hhead⟩ := probesReturn_makeUrls hp
  have hloop := probeLoop_ok net.head (makeUrls sel.minVersion) ss 0 [] false hlen hhead
  have hzip : List.zipWith (fun (pu : JSString × JSString) s => (⟨pu.1, pu.2, s⟩ : Download))
      (makeUrls sel.minVersion) ss =
      List.zipWith (fun platform s =>
        (⟨platform, makeDownloadUrl sel.minVersion platform, s⟩ : Download)) platforms ss := by
    simp [makeUrls, List.zipWith_map_left]
  simp only [findVersionForChannel, hdata, hsel, bind, Except.bind, hloop, pure, Except.pure,
    List.nil_append, Bool.false_or, hzip]

/-- A fault of one channel ends the run: no report is produced. -/
theorem allResults_error (timestamp : JSString) (net : JSString → ChannelNet)
    (channel : JSString) (hc : channel ∈ channels) (f : Fault)
    (hf : findVersionForChannel (net channel) channel = Except.error f) :
    ∃ f', allResults timestamp net = Except.error f' := by
  simp only [channels, List.mem_cons, List.mem_singleton, List.not_mem_nil, or_false] at hc
  cases h1 : findVersionForChannel (net (utf16 "Stable")) (utf16 "Stable") with
  | error f1 => exact ⟨f1, by simp [allResults, h1, bind, Except.bind]⟩
  | ok r1 =>
    cases h2 : findVersionForChannel (net (utf16 "Beta")) (utf16 "Beta") with
    | error f2 => exact ⟨f2, by simp [allResults, h1, h2, bind, Except.bind]⟩
    | ok r2 =>
      cases h3 : findVersionForChannel (net (utf16 "Dev")) (utf16 "Dev") with
      | error f3 => exact ⟨f3, by simp [allResults, h1, h2, h3, bind, Except.bind]⟩
      | ok r3 =>
        cases h4 : findVersionForChannel (net (utf16 "Canary")) (utf16 "Canary") with
        | error f4 => exact ⟨f4, by simp [allResults, h1, h2, h3, h4, bind, Except.bind]⟩
        | ok r4 =>
          rcases hc with rfl | rfl | rfl | rfl
          · rw [h1] at hf; cases hf
          · rw [h2] at hf; cases hf
          · rw [h3] at hf; cases hf
          · rw [h4] at hf; cases hf

theorem makeDownloadUrl_cancel (version p q : JSString)
    (h : makeDownloadUrl version p = makeDownloadUrl version q) : p = q := by
  unfold makeDownloadUrl at h
  simp only [List.append_assoc] at h
  have h3 := List.append_cancel_left (List.append_cancel_left (List.append_cancel_left h))
  have hlen := congrArg List.length h3
  simp only [List.length_append] at hlen
  exact (List.append_inj h3 (by omega)).1

theorem all_200_iff (ss : List Nat) :
    (!(ss.any (fun s => s != 200))) = true ↔ ∀ s ∈ ss, s = 200 := by
  simp

theorem map_status_zipWith (version : JSString) :
    ∀ (ps : List JSString) (ss : List Nat), ss.length = ps.length →
      (List.zipWith (fun platform s =>
        (⟨platform, makeDownloadUrl version platform, s⟩ : Download)) ps ss).map
          (fun d => d.status) = ss := by
  intro ps
  induction ps with
  | nil => intro ss h; simp [List.length_eq_zero.1 h]
  | cons p ps ih =>
    intro ss h
    cases ss with
    | nil => simp at h
    | cons s ss => simp [ih ss (by simpa using h)]

theorem map_platform_zipWith (version : JSString) :
    ∀ (ps : List JSString) (ss : List Nat), ss.length = ps.length →
      (List.zipWith (fun platform s =>
        (⟨platform, makeDownloadUrl version platform, s⟩ : Download)) ps ss).map
          (fun d => d.platform) = ps := by
  intro ps
  induction ps with
  | nil => intro ss h; simp
  | cons p ps ih =>
    intro ss h
    cases ss with
    | nil => simp at h
    | cons s ss => simp [ih ss (by simpa using h)]

/-! ## The claims on `findVersionForChannel` -/

/-- On an empty metadata collection the loop body never runs: whatever the
five probes return, the result carries the initial `minVersion` and the
initial `minRevision`, never the values "0.0.0.0" and "0" with which `result`
is declared, and its `ok` is true exactly when every probe status is 200. -/
theorem findVersionForChannel_of_empty (net : ChannelNet) (channel : JSString)
    (ss : List Nat) (hdata : net.releases = Except.ok [])
    (hp : ProbesReturn net.head (utf16 "99999.99999.99999.99999") ss) :
    ∃ r, findVersionForChannel net channel = Except.ok r ∧
      r.version = utf16 "99999.99999.99999.99999" ∧
      r.revision = Revision.number 10000000000000000 ∧
      (r.ok = true ↔ ∀ s ∈ ss, s = 200) :=
  ⟨_, findVersionForChannel_ok net channel [] initialSelection ss hdata rfl hp, rfl, rfl,
    all_200_iff ss⟩

/-- C3, at the failing input. On an empty metadata collection with five probes
that return 200, `findVersionForChannel` returns the version
"99999.99999.99999.99999", the number 10000000000000000 as revision and
`ok = true`: the values "0.0.0.0", "0" and `false` with which `result` is
declared are overwritten. -/
theorem findVersionForChannel_empty_overwrites_defaults :
    ∃ r, findVersionForChannel ⟨Except.ok [], fun _ _ => Except.ok 200⟩ (utf16 "Stable")
        = Except.ok r ∧
      r.version = utf16 "99999.99999.99999.99999" ∧
      r.revision = Revision.number 10000000000000000 ∧
      r.ok = true ∧
      r.version ≠ utf16 "0.0.0.0" ∧ r.revision ≠ Revision.string (utf16 "0") ∧
      r.ok ≠ false := by
  refine ⟨_, rfl, ?_, ?_, ?_, ?_, ?_, ?_⟩ <;> decide

/-- C4. When the selection loop returns and the five probes return the
statuses `ss`, `findVersionForChannel` returns a result that records exactly
these statuses and whose `ok` is true if and only if every status is 200. -/
theorem findVersionForChannel_ok_iff (net : ChannelNet) (channel : JSString)
    (data : List ReleaseEntry) (sel : Selection) (ss : List Nat)
    (hdata : net.releases = Except.ok data)
    (hsel : selectLoop data initialSelection = Except.ok sel)
    (hp : ProbesReturn net.head sel.minVersion ss) :
    ∃ r, findVersionForChannel net channel = Except.ok r ∧
      r.downloads.map (fun d => d.status) = ss ∧
      (r.ok = true ↔ ∀ s ∈ ss, s = 200) :=
  ⟨_, findVersionForChannel_ok net channel data sel ss hdata hsel hp,
    map_status_zipWith sel.minVersion platforms ss hp.1, all_200_iff ss⟩

/-- C4, on the status lists of the specification: five times 200 gives
`ok = true`; a 404 or a 500 among them gives `ok = false`. -/
theorem findVersionForChannel_ok_iff_witness :
    (ProbesReturn (fun i _ => Except.ok ([200, 404, 200, 200, 200].getD i 0))
        (utf16 "121.0.6099.9") [200, 404, 200, 200, 200] ∧
      ∃ r, findVersionForChannel
          ⟨Except.ok [⟨utf16 "121.0.6099.9", 1002⟩],
            fun i _ => Except.ok ([200, 404, 200, 200, 200].getD i 0)⟩ (utf16 "Stable")
          = Except.ok r ∧
        r.downloads.map (fun d => d.status) = [200, 404, 200, 200, 200] ∧
        (r.ok = true ↔ ∀ s ∈ [200, 404, 200, 200, 200], s = 200)) ∧
    (findVersionForChannel
        ⟨Except.ok [⟨utf16 "121.0.6099.9", 1002⟩],
          fun i _ => Except.ok ([200, 200, 200, 200, 200].getD i 0)⟩ (utf16 "Stable")).map
      (fun r => r.ok) = Except.ok true ∧
    (findVersionForChannel
        ⟨Except.ok [⟨utf16 "121.0.6099.9", 1002⟩],
          fun i _ => Except.ok ([200, 404, 200, 200, 200].getD i 0)⟩ (utf16 "Stable")).map
      (fun r => r.ok) = Except.ok false ∧
    (findVersionForChannel
        ⟨Except.ok [⟨utf16 "121.0.6099.9", 1002⟩],
          fun i _ => Except.ok ([200, 200, 200, 500, 200].getD i 0)⟩ (utf16 "Stable")).map
      (fun r => r.ok) = Except.ok false :=
  ⟨⟨by decide,
    findVersionForChannel_ok_iff
      ⟨Except.ok [⟨utf16 "121.0.6099.9", 1002⟩],
        fun i _ => Except.ok ([200, 404, 200, 200, 200].getD i 0)⟩ (utf16 "Stable")
      [⟨utf16 "121.0.6099.9", 1002⟩] ⟨utf16 "121.0.6099.9", Revision.string (utf16 "1002")⟩
      [200, 404, 200, 200, 200] rfl (by decide) (by decide)⟩,
   by decide, by decide, by decide⟩

/-- C5, at the failing inputs. The pattern accepts "1.2.3x4" and the
three-group string "1.2.345", because its third separator is the unescaped
atom `.`; `hash` returns a key for both. -/
theorem reVersionNumber_accepts_any_third_separator :
    reVersionNumber_exec (utf16 "1.2.3x4")
      = some ⟨utf16 "1", utf16 "2", utf16 "3", utf16 "4"⟩ ∧
    reVersionNumber_exec (utf16 "1.2.345")
      = some ⟨utf16 "1", utf16 "2", utf16 "3", utf16 "5"⟩ ∧
    hash (utf16 "1.2.3x4") = Except.ok 1000020000300004 ∧
    hash (utf16 "1.2.345") = Except.ok 1000020000300005 := by
  decide

/-- C8. For every version and any two distinct platform labels the download
urls differ, and the urls of the five platforms are pairwise distinct. -/
theorem makeDownloadUrl_ne (version p q : JSString) (hpq : p ≠ q) :
    makeDownloadUrl version p ≠ makeDownloadUrl version q ∧
    (platforms.map (makeDownloadUrl version)).Nodup :=
  ⟨fun h => hpq (makeDownloadUrl_cancel version p q h),
   List.Nodup.map (fun a b h => makeDownloadUrl_cancel version a b h) (by decide)⟩

/-- C8, on the labels linux64 and win64 for version "121.0.6099.9". -/
theorem makeDownloadUrl_ne_witness :
    utf16 "linux64" ≠ utf16 "win64" ∧
    makeDownloadUrl (utf16 "121.0.6099.9") (utf16 "linux64") ≠
      makeDownloadUrl (utf16 "121.0.6099.9") (utf16 "win64") ∧
    (platforms.map (makeDownloadUrl (utf16 "121.0.6099.9"))).Nodup :=
  ⟨by decide,
   makeDownloadUrl_ne (utf16 "121.0.6099.9") (utf16 "linux64") (utf16 "win64") (by decide)⟩

/-- C9. When the selection loop returns the selection `sel` and the five
probes return the statuses `ss`, the result carries the selected version and
its downloads are, in the order of `platforms`, one entry per platform with
the url built by `makeDownloadUrl` for the selected version and that platform
and with the status returned by the probe of that url. -/
theorem findVersionForChannel_downloads (net : ChannelNet) (channel : JSString)
    (data : List ReleaseEntry) (sel : Selection) (ss : List Nat)
    (hdata : net.releases = Except.ok data)
    (hsel : selectLoop data initialSelection = Except.ok sel)
    (hp : ProbesReturn net.head sel.minVersion ss) :
    ∃ r, findVersionForChannel net channel = Except.ok r ∧
      r.version = sel.minVersion ∧
      r.downloads = List.zipWith (fun platform s =>
        ⟨platform, makeDownloadUrl sel.minVersion platform, s⟩) platforms ss ∧
      r.downloads.map (fun d => d.platform) =
        [utf16 "linux64", utf16 "mac-arm64", utf16 "mac-x64", utf16 "win32", utf16 "win64"] ∧
      r.downloads.map (fun d => d.status) = ss :=
  ⟨_, findVersionForChannel_ok net channel data sel ss hdata hsel hp, rfl, rfl,
    map_platform_zipWith sel.minVersion platforms ss hp.1,
    map_status_zipWith sel.minVersion platforms ss hp.1⟩

/-- C9, on one entry and the statuses 200, 404, 200, 500, 301. -/
theorem findVersionForChannel_downloads_witness :
    ProbesReturn (fun i _ => Except.ok ([200, 404, 200, 500, 301].getD i 0))
      (utf16 "121.0.6099.9") [200, 404, 200, 500, 301] ∧
    ∃ r, findVersionForChannel
        ⟨Except.ok [⟨utf16 "121.0.6099.9", 1002⟩],
          fun i _ => Except.ok ([200, 404, 200, 500, 301].getD i 0)⟩ (utf16 "Stable")
        = Except.ok r ∧
      r.version = utf16 "121.0.6099.9" ∧
      r.downloads = List.zipWith (fun platform s =>
        ⟨platform, makeDownloadUrl (utf16 "121.0.6099.9") platform, s⟩) platforms
          [200, 404, 200, 500, 301] ∧
      r.downloads.map (fun d => d.platform) =
        [utf16 "linux64", utf16 "mac-arm64", utf16 "mac-x64", utf16 "win32", utf16 "win64"] ∧
      r.downloads.map (fun d => d.status) = [200, 404, 200, 500, 301] :=
  ⟨by decide,
   findVersionForChannel_downloads
    ⟨Except.ok [⟨utf16 "121.0.6099.9", 1002⟩],
      fun i _ => Except.ok ([200, 404, 200, 500, 301].getD i 0)⟩ (utf16 "Stable")
    [⟨utf16 "121.0.6099.9", 1002⟩] ⟨utf16 "121.0.6099.9", Revision.string (utf16 "1002")⟩
    [200, 404, 200, 500, 301] rfl (by decide) (by decide)⟩

/-- C10, as amended. When the selection loop returns, the probe of one
platform raises the fault `f` and the probes made before it returned,
`findVersionForChannel` raises `f` and returns no result, whatever the later
probes would answer; and a run that processes this channel produces no
report. -/
theorem findVersionForChannel_probe_fault (net : ChannelNet) (channel : JSString)
    (data : List ReleaseEntry) (sel : Selection) (j : Nat) (f : Fault)
    (hdata : net.releases = Except.ok data)
    (hsel : selectLoop data initialSelection = Except.ok sel)
    (hj : j < platforms.length)
    (hprev : ∀ m (h : m < platforms.length), m < j →
      ∃ s, net.head m (makeDownloadUrl sel.minVersion (platforms.get ⟨m, h⟩)) = Except.ok s)
    (hfail : net.head j (makeDownloadUrl sel.minVersion (platforms.get ⟨j, hj⟩))
      = Except.error f) :
    findVersionForChannel net channel = Except.error f ∧
    ∀ (timestamp : JSString) (world : JSString → ChannelNet),
      channel ∈ channels → world channel = net →
      ∃ f', allResults timestamp world = Except.error f' := by
  have hfault : findVersionForChannel net channel = Except.error f := by
    have hloop := probeLoop_error net.head (makeUrls sel.minVersion) 0 ([], false) j f
      (by simpa [makeUrls] using hj)
      (by
        intro m hm hmj
        have hm' : m < platforms.length := by simpa [makeUrls] using hm
        simpa [makeUrls] using hprev m hm' hmj)
      (by simpa [makeUrls] using hfail)
    simp only [findVersionForChannel, hdata, hsel, bind, Except.bind, hloop]
  refine ⟨hfault, ?_⟩
  intro timestamp world hc hw
  exact allResults_error timestamp world channel hc f (by rw [hw]; exact hfault)

/-- C10, on a probe that raises for the second platform. -/
theorem findVersionForChannel_probe_fault_witness :
    (1 < platforms.length ∧
      (fun (i : Nat) (_ : JSString) =>
        if i = 1 then (Except.error Fault.transport : Except Fault Nat) else Except.ok 200) 1
        (makeDownloadUrl (utf16 "121.0.6099.9") (utf16 "mac-arm64"))
        = Except.error Fault.transport) ∧
    findVersionForChannel
      ⟨Except.ok [⟨utf16 "121.0.6099.9", 1002⟩],
        fun i _ => if i = 1 then Except.error Fault.transport else Except.ok 200⟩
      (utf16 "Stable") = Except.error Fault.transport ∧
    ∀ (timestamp : JSString) (world : JSString → ChannelNet),
      utf16 "Stable" ∈ channels →
      world (utf16 "Stable") =
        ⟨Except.ok [⟨utf16 "121.0.6099.9", 1002⟩],
          fun i _ => if i = 1 then Except.error Fault.transport else Except.ok 200⟩ →
      ∃ f', allResults timestamp world = Except.error f' :=
  ⟨⟨by decide, rfl⟩,
   findVersionForChannel_probe_fault
    ⟨Except.ok [⟨utf16 "121.0.6099.9", 1002⟩],
      fun i _ => if i = 1 then Except.error Fault.transport else Except.ok 200⟩
    (utf16 "Stable") [⟨utf16 "121.0.6099.9", 1002⟩]
    ⟨utf16 "121.0.6099.9", Revision.string (utf16 "1002")⟩ 1 Fault.transport
    rfl (by decide) (by decide)
    (by
      intro m h hm
      have hm0 : m = 0 := by omega
      subst hm0
      exact ⟨200, rfl⟩)
    rfl⟩

/-- C10 as stated fails: with one valid entry and a probe that raises for the
second platform, `findVersionForChannel` returns no result and the run
produces no report, although the other four probes would return 200. -/
theorem findVersionForChannel_probe_fault_aborts :
    findVersionForChannel
      ⟨Except.ok [⟨utf16 "121.0.6099.9", 1002⟩],
        fun i _ => if i = 1 then Except.error Fault.transport else Except.ok 200⟩
      (utf16 "Stable") = Except.error Fault.transport ∧
    allResults (utf16 "2023-01-01T00:00:00.000Z")
      (fun _ => ⟨Except.ok [⟨utf16 "121.0.6099.9", 1002⟩],
        fun i _ => if i = 1 then Except.error Fault.transport else Except.ok 200⟩)
      = Except.error Fault.transport := by
  decide

/-! ## The pattern on arbitrary input -/

theorem mem_reStar (test : Nat → Bool) :
    ∀ (s m r : JSString), (m, r) ∈ reStar test s → s = m ++ r ∧ ∀ c ∈ m, test c = true := by
  intro s
  induction s with
  | nil =>
    intro m r h
    simp only [reStar, List.mem_singleton, Prod.mk.injEq] at h
    obtain ⟨rfl, rfl⟩ := h
    simp
  | cons c cs ih =>
    intro m r h
    simp only [reStar, List.mem_append, List.mem_singleton, Prod.mk.injEq] at h
    rcases h with h | ⟨rfl, rfl⟩
    · by_cases hc : test c = true
      · simp only [hc, if_true, List.mem_map, Prod.mk.injEq] at h
        obtain ⟨⟨m', r'⟩, hmem, rfl, rfl⟩ := h
        obtain ⟨hs, hall⟩ := ih m' r' hmem
        refine ⟨by simp [hs], ?_⟩
        intro d hd
        rcases List.mem_cons.1 hd with rfl | hd
        · exact hc
        · exact hall d hd
      · simp [hc] at h
    · simp

theorem mem_rePlus (test : Nat → Bool) (s m r : JSString) (h : (m, r) ∈ rePlus test s) :
    s = m ++ r ∧ m ≠ [] ∧ ∀ c ∈ m, test c = true := by
  cases s with
  | nil => simp [rePlus] at h
  | cons c cs =>
    by_cases hc : test c = true
    · simp only [rePlus, hc, if_true, List.mem_map, Prod.mk.injEq] at h
      obtain ⟨⟨m', r'⟩, hmem, rfl, rfl⟩ := h
      obtain ⟨hs, hall⟩ := mem_reStar test cs m' r' hmem
      refine ⟨by simp [hs], by simp, ?_⟩
      intro d hd
      rcases List.mem_cons.1 hd with rfl | hd
      · exact hc
      · exact hall d hd
    · simp [rePlus, hc] at h

theorem mem_reChar (test : Nat → Bool) (s r : JSString) (h : r ∈ reChar test s) :
    ∃ c, s = c :: r ∧ test c = true := by
  cases s with
  | nil => simp [reChar] at h
  | cons c cs =>
    by_cases hc : test c = true
    · simp only [reChar, hc, if_true, List.mem_singleton] at h
      exact ⟨c, by rw [h], hc⟩
    · simp [reChar, hc] at h

theorem mem_reEnd (s : JSString) (u : Unit) (h : u ∈ reEnd s) : s = [] := by
  cases s with
  | nil => rfl
  | cons c cs => simp [reEnd] at h

/-- Every match of the pattern captures four non-empty groups of digits, and
the input is these groups separated by two full stops and then by one code
unit that is not a line terminator. -/
theorem mem_reVersionNumber_matches (v : JSString) (g : Groups)
    (h : g ∈ reVersionNumber_matches v) :
    IsDigits g.major ∧ IsDigits g.minor ∧ IsDigits g.build ∧ IsDigits g.patch ∧
    ∃ x, isAnyChar x = true ∧
      v = g.major ++ 46 :: (g.minor ++ 46 :: (g.build ++ x :: g.patch)) := by
  simp only [reVersionNumber_matches, List.mem_flatMap, List.mem_map] at h
  obtain ⟨⟨m1, r1⟩, h1, t1, hc1, ⟨m2, r2⟩, h2, t2, hc2, ⟨m3, r3⟩, h3, t3, hc3,
    ⟨m4, r4⟩, h4, u, hu, rfl⟩ := h
  obtain ⟨e1, n1, d1⟩ := mem_rePlus _ _ _ _ h1
  obtain ⟨c1, ec1, hd1⟩ := mem_reChar _ _ _ hc1
  obtain ⟨e2, n2, d2⟩ := mem_rePlus _ _ _ _ h2
  obtain ⟨c2, ec2, hd2⟩ := mem_reChar _ _ _ hc2
  obtain ⟨e3, n3, d3⟩ := mem_rePlus _ _ _ _ h3
  obtain ⟨c3, ec3, hd3⟩ := mem_reChar _ _ _ hc3
  obtain ⟨e4, n4, d4⟩ := mem_rePlus _ _ _ _ h4
  have e5 := mem_reEnd _ _ hu
  simp only at ec1 ec2 ec3 e5
  have hc1' : c1 = 46 := by simpa [isLiteralDot] using hd1
  have hc2' : c2 = 46 := by simpa [isLiteralDot] using hd2
  refine ⟨⟨n1, d1⟩, ⟨n2, d2⟩, ⟨n3, d3⟩, ⟨n4, d4⟩, c3, hd3, ?_⟩
  simp only
  rw [e1, ec1, hc1', e2, ec2, hc2', e3, ec3, e4, e5, List.append_nil]

theorem mem_matches_of_exec {v : JSString} {g : Groups}
    (h : reVersionNumber_exec v = some g) : g ∈ reVersionNumber_matches v :=
  List.mem_of_mem_head? (by rw [reVersionNumber_exec] at h; rw [h]; rfl)

theorem hash_of_exec {v : JSString} {g : Groups} (h : reVersionNumber_exec v = some g) :
    hash v = Except.ok
      (BigInt g.major * 1000000000000000 + BigInt g.minor * 10000000000
        + BigInt g.build * 100000 + BigInt g.patch) := by
  simp [hash, h]

theorem hash_error_iff (v : JSString) :
    hash v = Except.error Fault.typeError ↔ reVersionNumber_exec v = none := by
  cases h : reVersionNumber_exec v <;> simp [hash, h]

theorem hash_ok_iff (v : JSString) :
    (∃ k, hash v = Except.ok k) ↔ reVersionNumber_exec v ≠ none := by
  cases h : reVersionNumber_exec v <;> simp [hash, h]

theorem BigInt_append_singleton (s : JSString) (c : Nat) :
    BigInt (s ++ [c]) = 10 * BigInt s + (c - 48) := by
  simp [BigInt, List.foldl_append]

theorem BigInt_eq_decimalValue (s : JSString) : BigInt s = decimalValue s := by
  induction s using List.reverseRecOn with
  | nil => rfl
  | append_singleton s c ih =>
    rw [BigInt_append_singleton, ih]
    simp [decimalValue, Nat.ofDigits_cons, Nat.add_comm]

/-- The loop raises as soon as it reaches an entry whose version does not
match, provided the key of the running minimum can be computed. -/
theorem selectLoop_error (data : List ReleaseEntry) :
    ∀ (st : Selection), (∃ k, hash st.minVersion = Except.ok k) →
      (∃ e ∈ data, reVersionNumber_exec e.version = none) →
      selectLoop data st = Except.error Fault.typeError := by
  induction data with
  | nil => intro st _ h; simp at h
  | cons entry rest ih =>
    intro st hst hbad
    obtain ⟨k0, hk0⟩ := hst
    cases hexec : reVersionNumber_exec entry.version with
    | none =>
      have herr := (hash_error_iff entry.version).2 hexec
      simp [selectLoop, selectStep, isOlderVersion, herr, bind, Except.bind]
    | some g =>
      have hk := hash_of_exec hexec
      have hstep := selectStep_of_hash hk hk0
      obtain ⟨e, he, hnone⟩ := hbad
      have he' : e ∈ rest := by
        rcases List.mem_cons.1 he with rfl | he
        · rw [hexec] at hnone; cases hnone
        · exact he
      by_cases hlt : BigInt g.major * 1000000000000000 + BigInt g.minor * 10000000000
          + BigInt g.build * 100000 + BigInt g.patch < k0
      · rw [if_pos hlt] at hstep
        have hrest := ih (selectionOf entry) ⟨_, hk⟩ ⟨e, he', hnone⟩
        simp only [selectLoop, hstep, bind, Except.bind, hrest]
      · rw [if_neg hlt] at hstep
        have hrest := ih st ⟨_, hk0⟩ ⟨e, he', hnone⟩
        simp only [selectLoop, hstep, bind, Except.bind, hrest]

/-! ## Faults, keys and the order on matching strings -/

/-- C11. The function `hash` raises exactly on the strings that do not match
`reVersionNumber`, and returns a key exactly on those that match; and when the
metadata list holds, at any position, an entry whose version does not match,
the selection loop raises and `findVersionForChannel` raises without a
result: the entry is not skipped. -/
theorem findVersionForChannel_raises_on_unmatched (net : ChannelNet) (channel : JSString)
    (data : List ReleaseEntry) (hdata : net.releases = Except.ok data)
    (hbad : ∃ e ∈ data, reVersionNumber_exec e.version = none) :
    (∀ v, (hash v = Except.error Fault.typeError ↔ reVersionNumber_exec v = none) ∧
      ((∃ k, hash v = Except.ok k) ↔ reVersionNumber_exec v ≠ none)) ∧
    selectLoop data initialSelection = Except.error Fault.typeError ∧
    findVersionForChannel net channel = Except.error Fault.typeError := by
  have hloop := selectLoop_error data initialSelection ⟨_, hash_initialSelection⟩ hbad
  refine ⟨fun v => ⟨hash_error_iff v, hash_ok_iff v⟩, hloop, ?_⟩
  simp only [findVersionForChannel, hdata, hloop, bind, Except.bind]

/-- C11, on a list whose second entry "1.2.3" has three groups only, between
two valid entries, with probes that would all return 200. -/
theorem findVersionForChannel_raises_on_unmatched_witness :
    (∃ e ∈ [(⟨utf16 "121.0.6100.1", 1001⟩ : ReleaseEntry), ⟨utf16 "1.2.3", 7⟩,
        ⟨utf16 "121.0.6099.9", 1002⟩], reVersionNumber_exec e.version = none) ∧
    (∀ v, (hash v = Except.error Fault.typeError ↔ reVersionNumber_exec v = none) ∧
      ((∃ k, hash v = Except.ok k) ↔ reVersionNumber_exec v ≠ none)) ∧
    selectLoop [⟨utf16 "121.0.6100.1", 1001⟩, ⟨utf16 "1.2.3", 7⟩,
        ⟨utf16 "121.0.6099.9", 1002⟩] initialSelection = Except.error Fault.typeError ∧
    findVersionForChannel
      ⟨Except.ok [⟨utf16 "121.0.6100.1", 1001⟩, ⟨utf16 "1.2.3", 7⟩,
        ⟨utf16 "121.0.6099.9", 1002⟩], fun _ _ => Except.ok 200⟩ (utf16 "Stable")
      = Except.error Fault.typeError :=
  ⟨⟨⟨utf16 "1.2.3", 7⟩, by simp, by decide⟩,
   findVersionForChannel_raises_on_unmatched
    ⟨Except.ok [⟨utf16 "121.0.6100.1", 1001⟩, ⟨utf16 "1.2.3", 7⟩,
      ⟨utf16 "121.0.6099.9", 1002⟩], fun _ _ => Except.ok 200⟩ (utf16 "Stable")
    [⟨utf16 "121.0.6100.1", 1001⟩, ⟨utf16 "1.2.3", 7⟩, ⟨utf16 "121.0.6099.9", 1002⟩] rfl
    ⟨⟨utf16 "1.2.3", 7⟩, by simp, by decide⟩⟩

/-- C12. For every string that matches `reVersionNumber`, the four captured
groups are non-empty groups of digits and `hash` returns the natural number
major * 10^15 + minor * 10^10 + build * 10^5 + patch of their decimal values,
whatever their size. -/
theorem hash_eq_weighted_sum (v : JSString) (g : Groups)
    (h : reVersionNumber_exec v = some g) :
    IsDigits g.major ∧ IsDigits g.minor ∧ IsDigits g.build ∧ IsDigits g.patch ∧
    hash v = Except.ok
      (decimalValue g.major * 10 ^ 15 + decimalValue g.minor * 10 ^ 10
        + decimalValue g.build * 10 ^ 5 + decimalValue g.patch) := by
  obtain ⟨h1, h2, h3, h4, -⟩ := mem_reVersionNumber_matches v g (mem_matches_of_exec h)
  refine ⟨h1, h2, h3, h4, ?_⟩
  rw [hash_of_exec h, BigInt_eq_decimalValue, BigInt_eq_decimalValue, BigInt_eq_decimalValue,
    BigInt_eq_decimalValue]
  norm_num

/-- C12, on a version whose major component has thirty digits. -/
theorem hash_eq_weighted_sum_witness :
    reVersionNumber_exec (utf16 "123456789012345678901234567890.0.12.1")
      = some ⟨utf16 "123456789012345678901234567890", utf16 "0", utf16 "12", utf16 "1"⟩ ∧
    hash (utf16 "123456789012345678901234567890.0.12.1")
      = Except.ok 123456789012345678901234567890000000001200001 ∧
    (IsDigits (utf16 "123456789012345678901234567890") ∧ IsDigits (utf16 "0") ∧
      IsDigits (utf16 "12") ∧ IsDigits (utf16 "1") ∧
      hash (utf16 "123456789012345678901234567890.0.12.1") = Except.ok
        (decimalValue (utf16 "123456789012345678901234567890") * 10 ^ 15
          + decimalValue (utf16 "0") * 10 ^ 10
          + decimalValue (utf16 "12") * 10 ^ 5 + decimalValue (utf16 "1"))) :=
  ⟨by decide, by decide,
   hash_eq_weighted_sum (utf16 "123456789012345678901234567890.0.12.1")
    ⟨utf16 "123456789012345678901234567890", utf16 "0", utf16 "12", utf16 "1"⟩ (by decide)⟩

/-- C13, as amended. For every release entry whose version is a valid
VersionString, `isOlderVersion` against the initial minimum returns true
exactly when the components are not all 99999, the initial minimum is never
older than the entry, and when the components are not all 99999 the first
iteration of the loop replaces the initial `minVersion` and `minRevision` by
the version and revision of the entry. -/
theorem isOlderVersion_initial (e : ReleaseEntry) (g : Groups)
    (hg : IsVersionString e.version g) :
    isOlderVersion e.version (utf16 "99999.99999.99999.99999")
      = Except.ok (decide (versionTuple g ≠ (99999, 99999, 99999, 99999))) ∧
    isOlderVersion (utf16 "99999.99999.99999.99999") e.version = Except.ok false ∧
    (versionTuple g ≠ (99999, 99999, 99999, 99999) →
      selectStep initialSelection e = Except.ok (selectionOf e) ∧
      ∀ rest, selectLoop (e :: rest) initialSelection = selectLoop rest (selectionOf e)) := by
  have hk := hash_of_isVersionString hg
  have h0 : hash (utf16 "99999.99999.99999.99999") = Except.ok 99999999999999999999 :=
    hash_initialSelection
  obtain ⟨-, -, -, -, a1, a2, a3, a4, -⟩ := hg
  have hiff : BigInt g.major * 1000000000000000 + BigInt g.minor * 10000000000
      + BigInt g.build * 100000 + BigInt g.patch < 99999999999999999999 ↔
      versionTuple g ≠ (99999, 99999, 99999, 99999) := by
    simp only [versionTuple, ne_eq, Prod.mk.injEq]
    omega
  refine ⟨?_, ?_, ?_⟩
  · rw [isOlderVersion_of_hash hk h0]
    congr 1
    simp only [decide_eq_decide]
    exact hiff
  · rw [isOlderVersion_of_hash h0 hk]
    congr 1
    simp only [decide_eq_false_iff_not]
    omega
  · intro hne
    have hstep := @selectStep_of_hash initialSelection e _ _ hk hash_initialSelection
    rw [if_pos (hiff.2 hne)] at hstep
    refine ⟨hstep, ?_⟩
    intro rest
    simp only [selectLoop, hstep, bind, Except.bind]

/-- C13, on the entry ("121.0.6099.9", 1002). -/
theorem isOlderVersion_initial_witness :
    IsVersionString (utf16 "121.0.6099.9")
      ⟨utf16 "121", utf16 "0", utf16 "6099", utf16 "9"⟩ ∧
    isOlderVersion (utf16 "121.0.6099.9") (utf16 "99999.99999.99999.99999")
      = Except.ok true ∧
    isOlderVersion (utf16 "99999.99999.99999.99999") (utf16 "121.0.6099.9")
      = Except.ok false ∧
    ((121, 0, 6099, 9) ≠ ((99999, 99999, 99999, 99999) : Nat × Nat × Nat × Nat) →
      selectStep initialSelection ⟨utf16 "121.0.6099.9", 1002⟩
        = Except.ok ⟨utf16 "121.0.6099.9", Revision.string (utf16 "1002")⟩ ∧
      ∀ rest, selectLoop (⟨utf16 "121.0.6099.9", 1002⟩ :: rest) initialSelection
        = selectLoop rest ⟨utf16 "121.0.6099.9", Revision.string (utf16 "1002")⟩) :=
  ⟨by decide,
   isOlderVersion_initial ⟨utf16 "121.0.6099.9", 1002⟩
    ⟨utf16 "121", utf16 "0", utf16 "6099", utf16 "9"⟩ (by decide)⟩

/-- C13 as stated fails: the valid version "99999.99999.99999.99999" is not
older than the initial minimum, and an entry that carries it does not replace
the initial `minVersion` and `minRevision`. -/
theorem isOlderVersion_initial_not_strict :
    IsVersionString (utf16 "99999.99999.99999.99999")
      ⟨utf16 "99999", utf16 "99999", utf16 "99999", utf16 "99999"⟩ ∧
    isOlderVersion (utf16 "99999.99999.99999.99999") (utf16 "99999.99999.99999.99999")
      = Except.ok false ∧
    selectStep initialSelection ⟨utf16 "99999.99999.99999.99999", 1001⟩
      = Except.ok initialSelection ∧
    initialSelection ≠ selectionOf ⟨utf16 "99999.99999.99999.99999", 1001⟩ := by
  decide

/-- C14. There are matching strings `a` and `b`, one with a component of at
least 100000, whose tuples are in lexicographic order while `isOlderVersion`
returns false: `a` = "0.0.0.200000" and `b` = "0.0.1.0". -/
theorem isOlderVersion_out_of_range :
    ∃ a b ga gb, a = utf16 "0.0.0.200000" ∧ b = utf16 "0.0.1.0" ∧
      reVersionNumber_exec a = some ga ∧ reVersionNumber_exec b = some gb ∧
      versionTuple ga = (0, 0, 0, 200000) ∧ versionTuple gb = (0, 0, 1, 0) ∧
      100000 ≤ (versionTuple ga).2.2.2 ∧
      tupleLt (versionTuple ga) (versionTuple gb) ∧
      hash a = Except.ok 200000 ∧ hash b = Except.ok 100000 ∧
      isOlderVersion a b = Except.ok false :=
  ⟨utf16 "0.0.0.200000", utf16 "0.0.1.0",
    ⟨utf16 "0", utf16 "0", utf16 "0", utf16 "200000"⟩,
    ⟨utf16 "0", utf16 "0", utf16 "1", utf16 "0"⟩,
    rfl, rfl, by decide, by decide, by decide, by decide, by decide, by decide, by decide,
    by decide, by decide⟩

/-- C15. On strings that match `reVersionNumber`, `isOlderVersion` returns
and is irreflexive, asymmetric and transitive; neither of two strings is older
than the other exactly when their keys are equal, and this relation is
reflexive, symmetric and transitive. -/
theorem isOlderVersion_strict_weak_order (a b c : JSString)
    (ha : reVersionNumber_exec a ≠ none) (hb : reVersionNumber_exec b ≠ none)
    (hc : reVersionNumber_exec c ≠ none) :
    (∃ r, isOlderVersion a b = Except.ok r) ∧
    isOlderVersion a a = Except.ok false ∧
    (isOlderVersion a b = Except.ok true → isOlderVersion b a = Except.ok false) ∧
    (isOlderVersion a b = Except.ok true → isOlderVersion b c = Except.ok true →
      isOlderVersion a c = Except.ok true) ∧
    (Incomparable a b ↔ hash a = hash b) ∧
    Incomparable a a ∧
    (Incomparable a b → Incomparable b a) ∧
    (Incomparable a b → Incomparable b c → Incomparable a c) := by
  obtain ⟨ka, hka⟩ := (hash_ok_iff a).2 ha
  obtain ⟨kb, hkb⟩ := (hash_ok_iff b).2 hb
  obtain ⟨kc, hkc⟩ := (hash_ok_iff c).2 hc
  simp only [Incomparable, isOlderVersion_of_hash hka hkb, isOlderVersion_of_hash hkb hka,
    isOlderVersion_of_hash hka hka, isOlderVersion_of_hash hkb hkc,
    isOlderVersion_of_hash hkc hkb, isOlderVersion_of_hash hka hkc,
    isOlderVersion_of_hash hkc hka, hka, hkb, Except.ok.injEq, decide_eq_true_eq,
    decide_eq_false_iff_not]
  refine ⟨⟨_, rfl⟩, ?_, ?_, ?_, ?_, ?_, ?_, ?_⟩ <;> omega

/-- C15, on "01.2.3.4", "1.2.3.4" and "1.2.3.5": the first two have the same
key and neither is older than the other. -/
theorem isOlderVersion_strict_weak_order_witness :
    (reVersionNumber_exec (utf16 "01.2.3.4") ≠ none ∧
      reVersionNumber_exec (utf16 "1.2.3.4") ≠ none ∧
      reVersionNumber_exec (utf16 "1.2.3.5") ≠ none) ∧
    Incomparable (utf16 "01.2.3.4") (utf16 "1.2.3.4") ∧
    ((∃ r, isOlderVersion (utf16 "01.2.3.4") (utf16 "1.2.3.4") = Except.ok r) ∧
    isOlderVersion (utf16 "01.2.3.4") (utf16 "01.2.3.4") = Except.ok false ∧
    (isOlderVersion (utf16 "01.2.3.4") (utf16 "1.2.3.4") = Except.ok true →
      isOlderVersion (utf16 "1.2.3.4") (utf16 "01.2.3.4") = Except.ok false) ∧
    (isOlderVersion (utf16 "01.2.3.4") (utf16 "1.2.3.4") = Except.ok true →
      isOlderVersion (utf16 "1.2.3.4") (utf16 "1.2.3.5") = Except.ok true →
      isOlderVersion (utf16 "01.2.3.4") (utf16 "1.2.3.5") = Except.ok true) ∧
    (Incomparable (utf16 "01.2.3.4") (utf16 "1.2.3.4") ↔
      hash (utf16 "01.2.3.4") = hash (utf16 "1.2.3.4")) ∧
    Incomparable (utf16 "01.2.3.4") (utf16 "01.2.3.4") ∧
    (Incomparable (utf16 "01.2.3.4") (utf16 "1.2.3.4") →
      Incomparable (utf16 "1.2.3.4") (utf16 "01.2.3.4")) ∧
    (Incomparable (utf16 "01.2.3.4") (utf16 "1.2.3.4") →
      Incomparable (utf16 "1.2.3.4") (utf16 "1.2.3.5") →
      Incomparable (utf16 "01.2.3.4") (utf16 "1.2.3.5"))) :=
  ⟨⟨by decide, by decide, by decide⟩, by decide,
   isOlderVersion_strict_weak_order (utf16 "01.2.3.4") (utf16 "1.2.3.4") (utf16 "1.2.3.5")
    (by decide) (by decide) (by decide)⟩

end FindVersion
